import Mathlib

/-!
Verification of the MediaWiki API client (`src/api.rs`).

The development shallowly embeds the request-engine portions of `Api`:

* `Json` models `serde_json::Value`.  Objects are modelled as key/value lists
  in ascending key order, mirroring `serde_json`'s `BTreeMap` backing store
  (the crate is used without the `preserve_order` feature); numbers are
  modelled as integers, which covers every number the verified code paths
  inspect (`lag` values and continuation counts).
* `json_merge`/`mergeObj` embed `Api::json_merge`.
* `query_api_json` embeds the maxlag retry loop, with the transport
  (`query_api_raw` + JSON parsing) abstracted as an oracle `respond` giving
  the parsed body of the n-th HTTP exchange, and with the observable side
  effects (exchange count, sleeps) returned explicitly.
* `pagerNext`/`runPager` embed `ApiQuery::next` from
  `get_query_api_json_limit_iter`, with `Api::get_query_api_json` abstracted
  as an oracle `fetch` from the page index and the request parameters to the
  parsed page; `get_query_api_json_limit` embeds the `try_fold` over it.
* `rawurlencode`, `oauthJoinedPairs` and `oauthBaseString` embed the
  canonicalization part of `Api::sign_oauth_request` (the `url::Url` parse is
  modelled as an already-parsed record, and the HMAC-SHA1/base64 step is out
  of scope of the claims).
* `cookies_to_string` embeds the cookie-header rendering.
-/

/-- Model of `serde_json::Value`.  `obj` entries are kept in ascending key
order with unique keys, the invariant maintained by `serde_json`'s `BTreeMap`
representation (`Json.objWF` states it). -/
inductive Json where
  | null
  | bool (b : Bool)
  | num (n : Int)
  | str (s : String)
  | arr (elems : List Json)
  | obj (entries : List (String × Json))

/-- Byte-wise (equivalently scalar-value-wise) lexicographic comparison of
char lists; `Ord for String` in Rust compares UTF-8 bytes, which orders
strings identically. -/
def charListLt : List Char → List Char → Bool
  | _, [] => false
  | [], _ :: _ => true
  | a :: as, b :: bs =>
    if a.toNat < b.toNat then true
    else if b.toNat < a.toNat then false
    else charListLt as bs

/-- Rust's `String` ordering (used by the `BTreeMap` inside
`serde_json::Map`). -/
def strLt (a b : String) : Bool := charListLt a.data b.data

/-- A `BTreeMap::insert`-like update of a sorted key/value list: replace the
value when the key is present, otherwise insert at the ordered position. -/
def setEntry : List (String × Json) → String → Json → List (String × Json)
  | [], k, v => [(k, v)]
  | (k', v') :: rest, k, v =>
    if k == k' then (k, v) :: rest
    else if strLt k k' then (k, v) :: (k', v') :: rest
    else (k', v') :: setEntry rest k v

mutual

/-- Embedding of `Api::json_merge` (`src/api.rs:275`): objects merge key by
key (`a.entry(k).or_insert(Value::Null)` then recursive merge), arrays are
extended, and any other pair is replaced by the second value. -/
def json_merge : Json → Json → Json
  | .obj a, .obj b => .obj (mergeObj a b)
  | .arr a, .arr b => .arr (a ++ b)
  | _, b => b
termination_by structural x y => y

/-- The object case of `Api::json_merge`: fold over `b`'s entries (in the
map's iteration order), merging each into `a` at its key, with `Value::Null`
standing in for an absent key. -/
def mergeObj (objA : List (String × Json)) : List (String × Json) → List (String × Json)
  | [] => objA
  | (k, v) :: rest =>
      mergeObj (setEntry objA k (json_merge ((List.lookup k objA).getD .null) v)) rest
termination_by structural x => x

end

namespace Json

/-- Embeds `Value::is_null`. -/
def isNull : Json → Bool
  | .null => true
  | _ => false

/-- True exactly on `Value::Object`. -/
def isObjB : Json → Bool
  | .obj _ => true
  | _ => false

/-- True exactly on `Value::Array`. -/
def isArrB : Json → Bool
  | .arr _ => true
  | _ => false

/-- Embeds `Value::as_str`. -/
def asStr : Json → Option String
  | .str s => some s
  | _ => none

/-- Embeds `Value::as_u64`: a non-negative integer number. -/
def asU64 : Json → Option Nat
  | .num n => if 0 ≤ n then some n.toNat else none
  | _ => none

/-- Embeds `v[k]` (immutable `serde_json` string indexing): the field of an object,
`Value::Null` otherwise. -/
def index (v : Json) (k : String) : Json :=
  match v with
  | .obj kvs => (List.lookup k kvs).getD .null
  | _ => .null

/-- The entry list of an object, `[]` for any other value. -/
def objEntries : Json → List (String × Json)
  | .obj kvs => kvs
  | _ => []

/-- Whether an object value carries key `k` at top level (`false` for
non-objects). -/
def hasTop (v : Json) (k : String) : Bool :=
  match v with
  | .obj kvs => kvs.any (fun kv => kv.1 == k)
  | _ => false

/-- Embeds `result.as_object_mut().map(|r| r.remove(k))`: drop the top-level key of
an object; any other value is left unchanged. -/
def removeTop (v : Json) (k : String) : Json :=
  match v with
  | .obj kvs => .obj (kvs.filter (fun kv => kv.1 != k))
  | _ => v

end Json

/-! ## Request parameters and engine configuration -/

/-- Model of the `HashMap<String, String>` parameter maps: an association
list with unique keys (`HashMap` iteration order is irrelevant to every
verified property; insertion replaces the binding of an existing key). -/
abbrev Params := List (String × String)

/-- Embeds `HashMap::insert`: replace the binding of `k` if present, otherwise add
it. -/
def insertParam : Params → String → String → Params
  | [], k, v => [(k, v)]
  | (k', v') :: rest, k, v =>
    if k == k' then (k, v) :: rest else (k', v') :: insertParam rest k v

/-- Embeds `HashMap::get`. -/
def lookupParam (ps : Params) (k : String) : Option String := List.lookup k ps

/-- Embeds `HashMap::contains_key`. -/
def hasParam (ps : Params) (k : String) : Bool := (List.lookup k ps).isSome

/-- Embeds `HashMap::extend`: insert every pair in order. -/
def extendParams (ps : Params) (new : List (String × String)) : Params :=
  new.foldl (fun acc kv => insertParam acc kv.1 kv.2) ps

/-- The `Api` configuration consumed by the retry loop: `maxlag_seconds` and
`max_retry_attempts`. -/
structure ApiCfg where
  maxlag_seconds : Option Nat
  max_retry_attempts : Nat

/-- Embedding of `Api::is_edit_query` (`src/api.rs:516`): editing only
through POST, and editing requires a token. -/
def is_edit_query (params : Params) (method : String) : Bool :=
  if method != "POST" then false
  else if !(hasParam params "token") then false
  else true

/-- Embedding of `Api::set_cumulative_maxlag_params` (`src/api.rs:539`). -/
def set_cumulative_maxlag_params (cfg : ApiCfg) (params : Params) (method : String)
    (cumulative : Nat) : Params :=
  if !(is_edit_query params method) then params
  else
    match cfg.maxlag_seconds with
    | none => params
    | some maxlag_seconds => insertParam params "maxlag" (toString (cumulative + maxlag_seconds))

/-- Embedding of `Api::check_maxlag` (`src/api.rs:555`): report the lag when
`error.code` is `"maxlag"`, falling back to the configured threshold when no
numeric `lag` is given. -/
def check_maxlag (cfg : ApiCfg) (v : Json) : Option Nat :=
  if ((v.index "error").index "code").asStr = some "maxlag" then
    match ((v.index "error").index "lag").asU64 with
    | some lag => some lag
    | none => cfg.maxlag_seconds
  else none

/-! ## The maxlag retry loop (`Api::query_api_json`)

The transport plus JSON parsing (`query_api_raw` + `serde_json::from_str`)
is abstracted as an oracle `respond : Nat → Json` giving the parsed body of
the n-th HTTP exchange of the call (the verified claims all concern runs in
which every body parses).  The run records the outcome together with the
observable effects: how many exchanges happened and which sleeps were
performed. -/

/-- The terminal errors of the retry loop that the claims talk about:
`"Max attempts reached [MAXLAG] after {max_retry_attempts} attempts,
cumulative maxlag {cumulative}"`, carried structurally. -/
inductive QueryError where
  | maxlagExceeded (attempts cumulative : Nat)
deriving DecidableEq

/-- Observable outcome of one `query_api_json` call. -/
structure QueryRun where
  result : Except QueryError Json
  exchanges : Nat
  sleeps : List Nat

/-- The `loop` of `Api::query_api_json` (`src/api.rs:443`), recursing on the
remaining attempt budget.  Each iteration re-applies
`set_cumulative_maxlag_params` to the same mutable parameter map, performs
one exchange, and either returns the body, retries after sleeping for the
reported lag, or fails once `attempts_left` is exhausted. -/
def query_api_json_go (cfg : ApiCfg) (respond : Nat → Json) (method : String) :
    Params → Nat → Nat → Nat → List Nat → QueryRun
  | params, attempts_left, cumulative, exchanges, sleeps =>
    let params' := set_cumulative_maxlag_params cfg params method cumulative
    let v := respond exchanges
    match check_maxlag cfg v with
    | none => ⟨.ok v, exchanges + 1, sleeps⟩
    | some lag_seconds =>
      match attempts_left with
      | 0 => ⟨.error (.maxlagExceeded cfg.max_retry_attempts cumulative), exchanges + 1, sleeps⟩
      | n + 1 =>
          query_api_json_go cfg respond method params' n (cumulative + lag_seconds)
            (exchanges + 1) (sleeps ++ [lag_seconds])

/-- Embedding of `Api::query_api_json` (`src/api.rs:434`): force
`format=json`, then run the retry loop with the full attempt budget and zero
cumulative lag. -/
def query_api_json (cfg : ApiCfg) (respond : Nat → Json) (params : Params)
    (method : String) : QueryRun :=
  query_api_json_go cfg respond method (insertParam params "format" "json")
    cfg.max_retry_attempts 0 0 []

/-! ## Serialization of continuation values

`ApiQuery::next` turns non-string continuation values into their JSON text
form via `Value::to_string()`; `Json.render` embeds `serde_json`'s compact
serializer. -/

/-- Two lowercase hex digits of a byte, as in `serde_json`'s `\u00XX`
escapes. -/
def hexDigitChar (n : Nat) : Char :=
  if n < 10 then Char.ofNat (48 + n) else Char.ofNat (87 + n)

/-- Model of `serde_json`'s escaping of one character inside a string literal. -/
def escapeJsonChar (c : Char) : String :=
  if c = '"' then "\\\""
  else if c = '\\' then "\\\\"
  else if c.toNat = 8 then "\\b"
  else if c.toNat = 9 then "\\t"
  else if c.toNat = 10 then "\\n"
  else if c.toNat = 12 then "\\f"
  else if c.toNat = 13 then "\\r"
  else if c.toNat < 32 then
    "\\u00" ++ String.mk [hexDigitChar (c.toNat / 16), hexDigitChar (c.toNat % 16)]
  else String.singleton c

/-- A JSON string literal, escaped as `serde_json` does. -/
def renderJsonString (s : String) : String :=
  "\"" ++ String.join (s.data.map escapeJsonChar) ++ "\""

mutual

/-- Embeds `Value::to_string()`: `serde_json`'s compact serialization. -/
def Json.render : Json → String
  | .null => "null"
  | .bool true => "true"
  | .bool false => "false"
  | .num n => toString n
  | .str s => renderJsonString s
  | .arr xs => "[" ++ renderElems xs ++ "]"
  | .obj kvs => "\x7b" ++ renderFields kvs ++ "\x7d"
termination_by structural j => j

/-- Comma-separated array elements. -/
def renderElems : List Json → String
  | [] => ""
  | [x] => Json.render x
  | x :: y :: rest => Json.render x ++ "," ++ renderElems (y :: rest)
termination_by structural l => l

/-- Comma-separated `"key":value` object fields. -/
def renderFields : List (String × Json) → String
  | [] => ""
  | [(k, v)] => renderJsonString k ++ ":" ++ Json.render v
  | (k, v) :: y :: rest => renderJsonString k ++ ":" ++ Json.render v ++ "," ++ renderFields (y :: rest)
termination_by structural l => l

end

/-- The per-value stringification in `ApiQuery::next` (`src/api.rs:394`):
string continuation values are taken as-is, anything else becomes its JSON
text form. -/
def stringifyContinueValue : Json → String
  | .str s => s
  | v => v.render

/-! ## The continuation pager (`ApiQuery` in `get_query_api_json_limit_iter`) -/

/-- Embedding of `Api::query_result_count` (`src/api.rs:341`): the length of
the first array value found while scanning `result["query"]`'s entries (in
the map's iteration order), `0` when there is none or `result["query"]` is
not an object. -/
def query_result_count (result : Json) : Nat :=
  match result.index "query" with
  | .obj kvs =>
      (kvs.findSome? (fun kv =>
        match kv.2 with
        | .arr a => some a.length
        | _ => none)).getD 0
  | _ => 0

/-- The fields of the `ApiQuery` iterator (`src/api.rs:372`), plus the index
of the next HTTP exchange (used to address the oracle). -/
structure PagerState where
  params : Params
  values_remaining : Option Nat
  continue_params : Json
  idx : Nat

/-- One emitted page together with the observable data around it: the state
the iterator was pulled in, the parameters the page was requested with, the
raw fetched page, the emitted item, and the updated state. -/
structure PageStep where
  before : PagerState
  paramsUsed : Params
  raw : Except String Json
  item : Except String Json
  after : PagerState

/-- The parameter map built at the start of `ApiQuery::next`
(`src/api.rs:386`): the caller's parameters extended with the previous
page's continuation fields, minus the `"continue"` marker key, values
stringified. -/
def buildCurrentParams (base : Params) (cont : Json) : Params :=
  match cont with
  | .obj kvs =>
      extendParams base
        ((kvs.filter (fun kv => kv.1 != "continue")).map
          (fun kv => (kv.1, stringifyContinueValue kv.2)))
  | _ => base

/-- Embedding of `ApiQuery::next` (`src/api.rs:381`), with
`Api::get_query_api_json` abstracted as the oracle `fetch` (page index and
request parameters to parsed page or error).  The source's
`result["continue"].take()` panics on a non-object page; the embedding of
that expression yields `Json.null` there, which no verified claim relies
on. -/
def pagerNext (fetch : Nat → Params → Except String Json) (st : PagerState) :
    Option PageStep :=
  if st.values_remaining = some 0 then none
  else
    let current := buildCurrentParams st.params st.continue_params
    match fetch st.idx current with
    | .ok result =>
        let cp := result.index "continue"
        let vr : Option Nat :=
          if cp.isNull then some 0
          else
            match st.values_remaining with
            | some num => some (num - query_result_count result)
            | none => none
        some ⟨st, current, .ok result, .ok (result.removeTop "continue"),
          ⟨st.params, vr, cp, st.idx + 1⟩⟩
    | .error e =>
        some ⟨st, current, .error e, .error e, ⟨st.params, some 0, .null, st.idx + 1⟩⟩

/-- Pulling the `ApiQuery` iterator up to `fuel` times, recording every
step.  (The iterator itself is unbounded; every claim about it is stated for
an arbitrary number of pulls.) -/
def runPager (fetch : Nat → Params → Except String Json) : Nat → PagerState → List PageStep
  | 0, _ => []
  | fuel + 1, st =>
    match pagerNext fetch st with
    | none => []
    | some step => step :: runPager fetch fuel step.after

/-- The initial `ApiQuery` state built by `get_query_api_json_limit_iter`
(`src/api.rs:424`). -/
def initPager (params : Params) (max : Option Nat) : PagerState :=
  ⟨params, max, .null, 0⟩

/-- The `try_fold` in `Api::get_query_api_json_limit` (`src/api.rs:358`):
merge the pages into an accumulator starting from `Value::Null`, stopping at
the first error. -/
def tryFoldMerge (acc : Json) : List (Except String Json) → Except String Json
  | [] => .ok acc
  | .ok v :: rest => tryFoldMerge (json_merge acc v) rest
  | .error e :: _ => .error e

/-- Embedding of `Api::get_query_api_json_limit` (`src/api.rs:353`) over the
first `fuel` pages of the iterator. -/
def get_query_api_json_limit (fetch : Nat → Params → Except String Json) (fuel : Nat)
    (params : Params) (max : Option Nat) : Except String Json :=
  tryFoldMerge .null ((runPager fetch fuel (initPager params max)).map (fun s => s.item))

/-- Embeds `Vec::join(sep)`: the elements separated by `sep`. -/
def joinSep (sep : String) : List String → String
  | [] => ""
  | [x] => x
  | x :: y :: rest => x ++ sep ++ joinSep sep (y :: rest)

/-! ## OAuth canonicalization (`Api::sign_oauth_request`) -/

/-- The characters `urlencoding::encode` leaves unchanged: ASCII
alphanumerics and `-`, `_`, `.`, `~`. -/
def isUrlUnreserved (c : Char) : Bool :=
  (c.toNat ≥ 65 && c.toNat ≤ 90) || (c.toNat ≥ 97 && c.toNat ≤ 122) ||
  (c.toNat ≥ 48 && c.toNat ≤ 57) || c = '-' || c = '_' || c = '.' || c = '~'

/-- An uppercase hex digit (as `urlencoding` emits). -/
def hexDigitUpper (n : Nat) : Char :=
  if n < 10 then Char.ofNat (48 + n) else Char.ofNat (55 + n)

/-- The UTF-8 bytes of a character. -/
def utf8Bytes (c : Char) : List Nat :=
  let n := c.toNat
  if n < 128 then [n]
  else if n < 2048 then [192 + n / 64, 128 + n % 64]
  else if n < 65536 then [224 + n / 4096, 128 + (n / 64) % 64, 128 + n % 64]
  else [240 + n / 262144, 128 + (n / 4096) % 64, 128 + (n / 64) % 64, 128 + n % 64]

/-- Renders `%XX` for one byte. -/
def percentByte (b : Nat) : String :=
  String.mk ['%', hexDigitUpper (b / 16), hexDigitUpper (b % 16)]

/-- Embedding of `Api::rawurlencode` (`src/api.rs:665`), i.e.
`urlencoding::encode`: percent-encode every byte outside the unreserved
set. -/
def rawurlencode (s : String) : String :=
  String.join (s.data.map (fun c =>
    if isUrlUnreserved c then String.singleton c
    else String.join ((utf8Bytes c).map percentByte)))

/-- The result of `url::Url::parse` as consumed by `sign_oauth_request`:
scheme, host, optional explicit port, and path (no query string). -/
structure ParsedUrl where
  scheme : String
  host : String
  port : Option Nat
  path : String

/-- The `url_string` built in `sign_oauth_request` (`src/api.rs:690`):
`scheme://host[:port]` followed by the path. -/
def baseUrlString (u : ParsedUrl) : String :=
  u.scheme ++ "://" ++ u.host ++
    (match u.port with
     | some p => ":" ++ toString p
     | none => "") ++ u.path

/-- The sorted key list of `sign_oauth_request` (`src/api.rs:677`): every
key percent-encoded, then sorted. -/
def oauthSortedEncodedKeys (to_sign : Params) : List String :=
  List.insertionSort (fun a b => !(strLt b a)) (to_sign.map (fun kv => rawurlencode kv.1))

/-- The `key=value` pair list of `sign_oauth_request` (`src/api.rs:680`):
for each sorted *encoded* key, look that key up in the raw map and render
`encoded_key=encoded_value`, silently dropping keys whose lookup fails. -/
def oauthJoinedPairs (to_sign : Params) : List String :=
  (oauthSortedEncodedKeys to_sign).filterMap (fun k =>
    (List.lookup k to_sign).map (fun v => k ++ "=" ++ rawurlencode v))

/-- The OAuth signature base string of `sign_oauth_request`
(`src/api.rs:700`). -/
def oauthBaseString (method : String) (u : ParsedUrl) (to_sign : Params) : String :=
  rawurlencode method ++ "&" ++ rawurlencode (baseUrlString u) ++ "&" ++
    rawurlencode (joinSep "&" (oauthJoinedPairs to_sign))

/-! ## Cookie store (`Api::cookies_to_string`) -/

/-- A stored cookie, as `cookie::Cookie` holds it: the name/value pair plus
the attribute parameters (`HttpOnly`, `Secure`, `Path=/`, `Expires=...`,
...) retained from parsing the `Set-Cookie` header value
(`Cookie::parse` at `src/api.rs:600` keeps them).  Each attribute is kept
here already rendered to the text `Display` emits for it, in `Display`'s
emission order. -/
structure StoredCookie where
  name : String
  value : String
  attributes : List String

/-- Embeds `Cookie::to_string()`, i.e. the `Display` impl of
`cookie::Cookie`: write `name=value`, then append `"; "` plus each retained
attribute parameter in turn. -/
def cookieToString (c : StoredCookie) : String :=
  c.attributes.foldl (fun acc a => acc ++ "; " ++ a) (c.name ++ "=" ++ c.value)

/-- The cookie jar: stored cookies in the jar's per-instance iteration
order. -/
abbrev CookieJar := List StoredCookie

/-- Embeds `CookieJar::add`: replace a same-named cookie, else append. -/
def jarAdd : CookieJar → StoredCookie → CookieJar
  | [], c => [c]
  | c' :: rest, c => if c.name == c'.name then c :: rest else c' :: jarAdd rest c

/-- Embedding of `Api::cookies_to_string` (`src/api.rs:607`): render every
stored cookie through `Cookie::to_string()` and join with `"; "`. -/
def cookies_to_string (jar : CookieJar) : String :=
  joinSep "; " (jar.map cookieToString)

/-- The spec's description of the cookie header (§4.4): all stored cookies
as bare `name=value` pairs joined by `"; "`, in the store's iteration
order, nothing else. -/
def specCookieHeader (jar : CookieJar) : String :=
  joinSep "; " (jar.map (fun c => c.name ++ "=" ++ c.value))

/-! ## Well-formedness and shape homogeneity (used by the merge claims) -/

/-- Adjacent-pairs strictly-ascending-keys check for object entry lists. -/
def entriesSortedB : List (String × Json) → Bool
  | [] => true
  | [_] => true
  | x :: y :: rest => strLt x.1 y.1 && entriesSortedB (y :: rest)

mutual

/-- Well-formedness of the object spine of a value: every object reached
through object values has strictly ascending, hence unique, keys — the
invariant `serde_json`'s `BTreeMap` maps always satisfy.  Arrays are left
unconstrained because `json_merge` never descends into them. -/
def Json.objWF : Json → Bool
  | .obj kvs => entriesSortedB kvs && Json.objWFEntries kvs
  | _ => true
termination_by structural j => j

/-- Applies `Json.objWF` to every value of an entry list. -/
def Json.objWFEntries : List (String × Json) → Bool
  | [] => true
  | (_, v) :: rest => Json.objWF v && Json.objWFEntries rest
termination_by structural l => l

end

/-- Hereditary shape homogeneity of a triple of values: all three are
non-containers, all three are arrays, or all three are objects whose values
at keys common to all three are again homogeneous.  This is the class on
which chaining `json_merge` over pages is associative; outside it the
replace case can discard a value that the other association order would
merge. -/
inductive Hom3 : Json → Json → Json → Prop where
  | scalars {a b c : Json} :
      a.isObjB = false → a.isArrB = false → b.isObjB = false → b.isArrB = false →
      c.isObjB = false → c.isArrB = false → Hom3 a b c
  | arrays (x y z : List Json) : Hom3 (.arr x) (.arr y) (.arr z)
  | objects {a b c : List (String × Json)}
      (h : ∀ k va vb vc, List.lookup k a = some va → List.lookup k b = some vb →
        List.lookup k c = some vc → Hom3 va vb vc) :
      Hom3 (.obj a) (.obj b) (.obj c)

/-! ## Concrete values used by the claim witnesses -/

/-- The parsed body `{"error":{"code":"maxlag","lag":3}}` returned by every
exchange in the C3 scenario. -/
def maxlagBody3 : Json :=
  .obj [("error", .obj [("code", .str "maxlag"), ("lag", .num 3)])]

/-- The body `{"error":{"code":"maxlag"}}` used to witness C9. -/
def maxlagBodyNoLag : Json := .obj [("error", .obj [("code", .str "maxlag")])]

/-- First page of the C5/C6 witness run: a `continue` object carrying the
marker plus one real continuation field, and one result array. -/
def c5Page0 : Json :=
  .obj [("continue", .obj [("continue", .str "-||"), ("xcontinue", .str "5")]),
        ("query", .obj [("x", .arr [.num 1])])]

/-- Second page of the C5/C6 witness run: no `continue` field. -/
def c5Page1 : Json := .obj [("query", .obj [("x", .arr [.num 2])])]

/-- Witness transport: page 0 then page 1. -/
def c5Fetch : Nat → Params → Except String Json := fun i _ =>
  if i = 0 then .ok c5Page0 else .ok c5Page1

/-! ## Basic lemmas about parameter maps -/

theorem lookup_insertParam_self (ps : Params) (k v : String) :
    List.lookup k (insertParam ps k v) = some v := by
  induction ps with
  | nil => simp [insertParam, List.lookup]
  | cons kv rest ih =>
    obtain ⟨k', v'⟩ := kv
    by_cases h : k = k'
    · simp [insertParam, h, List.lookup]
    · simp [insertParam, List.lookup, ih, beq_eq_false_iff_ne.mpr h]

theorem lookup_insertParam_ne (ps : Params) (k v k' : String) (h : k' ≠ k) :
    List.lookup k' (insertParam ps k v) = List.lookup k' ps := by
  induction ps with
  | nil => simp [insertParam, List.lookup, beq_eq_false_iff_ne.mpr h]
  | cons kv rest ih =>
    obtain ⟨k₀, v₀⟩ := kv
    by_cases hk : k = k₀
    · subst hk
      simp [insertParam, List.lookup, beq_eq_false_iff_ne.mpr h]
    · by_cases hk' : k' = k₀ <;>
        simp [insertParam, List.lookup, hk', ih, beq_eq_false_iff_ne.mpr hk]

theorem is_edit_query_iff (params : Params) (method : String) :
    is_edit_query params method = true ↔
      method = "POST" ∧ hasParam params "token" = true := by
  by_cases hm : method = "POST" <;> by_cases ht : hasParam params "token" = true <;>
    simp [is_edit_query, hm, ht]

/-! ## C4: maxlag parameter injection -/

/-- C4.  `set_cumulative_maxlag_params` injects `maxlag = cumulative +
threshold` exactly when the request is mutating (`POST` with a `token`
parameter) and a threshold is configured; in every other situation the
parameter map is returned untouched, so non-mutating requests and
unconfigured engines never receive the parameter. -/
theorem maxlag_injection_iff (cfg : ApiCfg) (params : Params) (method : String)
    (cumulative : Nat) :
    (∀ t, cfg.maxlag_seconds = some t → method = "POST" → hasParam params "token" = true →
      set_cumulative_maxlag_params cfg params method cumulative
          = insertParam params "maxlag" (toString (cumulative + t))
        ∧ lookupParam (set_cumulative_maxlag_params cfg params method cumulative) "maxlag"
          = some (toString (cumulative + t)))
    ∧ ((method ≠ "POST" ∨ hasParam params "token" = false ∨ cfg.maxlag_seconds = none) →
      set_cumulative_maxlag_params cfg params method cumulative = params) := by
  constructor
  · intro t hcfg hm htok
    have hedit : is_edit_query params method = true :=
      (is_edit_query_iff params method).mpr ⟨hm, htok⟩
    have heq : set_cumulative_maxlag_params cfg params method cumulative
        = insertParam params "maxlag" (toString (cumulative + t)) := by
      simp [set_cumulative_maxlag_params, hedit, hcfg]
    exact ⟨heq, by simp [heq, lookupParam, lookup_insertParam_self]⟩
  · intro h
    rcases h with hm | htok | hcfg
    · have hedit : is_edit_query params method = false := by
        rcases he : is_edit_query params method with _ | _
        · rfl
        · exact absurd ((is_edit_query_iff params method).mp he).1 hm
      simp [set_cumulative_maxlag_params, hedit]
    · have hedit : is_edit_query params method = false := by
        rcases he : is_edit_query params method with _ | _
        · rfl
        · have := ((is_edit_query_iff params method).mp he).2
          simp [htok] at this
      simp [set_cumulative_maxlag_params, hedit]
    · rcases he : is_edit_query params method with _ | _ <;>
        simp [set_cumulative_maxlag_params, he, hcfg]

/-- Witness for C4 at a concrete mutating request: a configured threshold of
5 seconds and cumulative lag 2 yield `maxlag=7`. -/
theorem maxlag_injection_iff_witness :
    lookupParam
        (set_cumulative_maxlag_params ⟨some 5, 5⟩ [("token", "abc")] "POST" 2) "maxlag"
      = some "7" :=
  ((maxlag_injection_iff ⟨some 5, 5⟩ [("token", "abc")] "POST" 2).1 5 rfl rfl
    (by decide)).2

/-! ## C8: cookie header rendering -/

/-- Counterexample to C8 as stated: `cookies_to_string` renders each stored
cookie through `Cookie::to_string()`, whose `Display` appends the attribute
parameters the cookie retained from its `Set-Cookie` value, so the output
is *not* just the `name=value` pairs.  A store holding the cookie parsed
from `Set-Cookie: sid=abc; HttpOnly` renders to `"sid=abc; HttpOnly"`, not
to the bare pair `"sid=abc"`. -/
theorem cookies_to_string_extra_text_counterexample :
    cookies_to_string [⟨"sid", "abc", ["HttpOnly"]⟩]
        ≠ specCookieHeader [⟨"sid", "abc", ["HttpOnly"]⟩]
    ∧ cookies_to_string [⟨"sid", "abc", ["HttpOnly"]⟩] = "sid=abc; HttpOnly"
    ∧ specCookieHeader [⟨"sid", "abc", ["HttpOnly"]⟩] = "sid=abc" :=
  ⟨by decide, rfl, rfl⟩

/-- C8, amended.  `cookies_to_string` renders the stored cookies in the
store's own iteration order joined by `"; "`, each cookie contributing its
`name=value` pair followed by its retained attribute parameters; when every
stored cookie is attribute-free, and only then does the claim's reading
hold, the output is exactly the `name=value` pairs joined by `"; "` with no
other text. -/
theorem cookies_to_string_renders_pairs (jar : CookieJar)
    (h : ∀ c ∈ jar, c.attributes = []) :
    cookies_to_string jar = specCookieHeader jar := by
  unfold cookies_to_string specCookieHeader
  congr 1
  apply List.map_congr_left
  intro c hc
  simp only [cookieToString, h c hc, List.foldl_nil]

/-- Witness for the amended C8: a concrete two-cookie attribute-free store
renders to exactly its pairs joined by `"; "`. -/
theorem cookies_to_string_renders_pairs_witness :
    cookies_to_string [⟨"a", "1", []⟩, ⟨"b", "2", []⟩] = "a=1; b=2" :=
  cookies_to_string_renders_pairs [⟨"a", "1", []⟩, ⟨"b", "2", []⟩] (by decide)

/-! ## C10: a zero ceiling performs no exchange -/

/-- C10.  With a ceiling of `Some(0)` the iterator yields nothing no matter
how often it is pulled — so no transport exchange happens — and
`get_query_api_json_limit` returns `Value::Null` as the accumulator. -/
theorem limit_zero_no_exchange (fetch : Nat → Params → Except String Json) (fuel : Nat)
    (params : Params) :
    runPager fetch fuel (initPager params (some 0)) = []
    ∧ get_query_api_json_limit fetch fuel params (some 0) = .ok .null := by
  have hrun : runPager fetch fuel (initPager params (some 0)) = [] := by
    cases fuel with
    | zero => rfl
    | succ n => simp [runPager, pagerNext, initPager]
  exact ⟨hrun, by simp [get_query_api_json_limit, hrun, tryFoldMerge]⟩

/-! ## C3: the maxlag retry schedule at budget 2 -/

/-- Counterexample to C3 as stated: with `max_retry_attempts = 2` and every
exchange answering `{"error":{"code":"maxlag","lag":3}}`, the engine does
*not* fail upon the second response — the run performs three exchanges, not
two. -/
theorem maxlag_budget2_counterexample :
    ¬ ((query_api_json ⟨some 5, 2⟩ (fun _ => maxlagBody3) [] "GET").exchanges = 2) := by
  decide

/-- C3, amended.  With `max_retry_attempts = 2` and every exchange answering
`{"error":{"code":"maxlag","lag":3}}`, the engine sleeps 3 seconds after the
first response, retries, sleeps 3 seconds after the second response, retries
again, and upon the *third* identical response fails with the
exhausted-retries error reporting the 2 configured attempts and cumulative
maxlag 6 (0 attempts remaining). -/
theorem maxlag_budget2_schedule :
    query_api_json ⟨some 5, 2⟩ (fun _ => maxlagBody3) [] "GET"
      = ⟨.error (.maxlagExceeded 2 6), 3, [3, 3]⟩ := rfl

/-! ## C9: a code-only maxlag error with no configured threshold -/

/-- C9.  When the first parsed body carries `error.code = "maxlag"` but no
numeric `error.lag`, and no maxlag threshold is configured, `query_api_json`
returns that body as a success after exactly one exchange, with no sleep and
no retry. -/
theorem maxlag_code_without_lag_is_success (cfg : ApiCfg) (respond : Nat → Json)
    (params : Params) (method : String)
    (hthr : cfg.maxlag_seconds = none)
    (hcode : (((respond 0).index "error").index "code").asStr = some "maxlag")
    (hlag : (((respond 0).index "error").index "lag").asU64 = none) :
    query_api_json cfg respond params method = ⟨.ok (respond 0), 1, []⟩ := by
  have hchk : check_maxlag cfg (respond 0) = none := by
    simp [check_maxlag, hcode, hlag, hthr]
  have hset : ∀ ps cum, set_cumulative_maxlag_params cfg ps method cum = ps := by
    intro ps cum
    rcases he : is_edit_query ps method with _ | _ <;>
      simp [set_cumulative_maxlag_params, he, hthr]
  unfold query_api_json query_api_json_go
  simp [hchk]

/-- Witness for C9: a concrete engine with no threshold and a code-only
maxlag body returns the body successfully after one exchange. -/
theorem maxlag_code_without_lag_is_success_witness :
    query_api_json ⟨none, 5⟩ (fun _ => maxlagBodyNoLag) [] "GET"
      = ⟨.ok maxlagBodyNoLag, 1, []⟩ :=
  maxlag_code_without_lag_is_success ⟨none, 5⟩ (fun _ => maxlagBodyNoLag) [] "GET"
    rfl rfl rfl

/-! ## Lookup lemmas for sorted-entry maps -/

theorem lookup_eq_none_of_not_mem {β : Type} (l : List (String × β)) (k : String)
    (h : k ∉ l.map (fun kv => kv.1)) : List.lookup k l = none := by
  induction l with
  | nil => rfl
  | cons hd rest ih =>
    obtain ⟨k₀, v₀⟩ := hd
    simp only [List.map_cons, List.mem_cons, not_or] at h
    simp [List.lookup, beq_eq_false_iff_ne.mpr h.1, ih h.2]

theorem lookup_setEntry_self (l : List (String × Json)) (k : String) (v : Json) :
    List.lookup k (setEntry l k v) = some v := by
  induction l with
  | nil => simp [setEntry, List.lookup]
  | cons hd rest ih =>
    obtain ⟨k', v'⟩ := hd
    by_cases h : k = k'
    · simp [setEntry, h, List.lookup]
    · rcases hlt : strLt k k' with _ | _ <;>
        simp [setEntry, hlt, List.lookup, ih, beq_eq_false_iff_ne.mpr h]

theorem lookup_setEntry_ne (l : List (String × Json)) (k : String) (v : Json) (k' : String)
    (h : k' ≠ k) : List.lookup k' (setEntry l k v) = List.lookup k' l := by
  induction l with
  | nil => simp [setEntry, List.lookup, beq_eq_false_iff_ne.mpr h]
  | cons hd rest ih =>
    obtain ⟨k₀, v₀⟩ := hd
    by_cases hk : k = k₀
    · subst hk
      simp [setEntry, List.lookup, beq_eq_false_iff_ne.mpr h]
    · rcases hlt : strLt k k₀ with _ | _ <;>
        by_cases hk' : k' = k₀ <;>
          simp [setEntry, hlt, List.lookup, ih, hk',
            beq_eq_false_iff_ne.mpr h, beq_eq_false_iff_ne.mpr hk,
            beq_eq_false_iff_ne.mpr (Ne.symm hk)]

/-- The pointwise description of `mergeObj`: for every key, the merged map
holds the recursive merge of `a`'s value (or `Value::Null`) with `b`'s value
when `b` binds the key, and `a`'s binding otherwise.  Requires `b`'s keys to
be duplicate-free, as the keys of a `serde_json` map are. -/
theorem lookup_mergeObj (b a : List (String × Json))
    (hnd : (b.map (fun kv => kv.1)).Nodup) (k : String) :
    List.lookup k (mergeObj a b)
      = match List.lookup k b with
        | some vb => some (json_merge ((List.lookup k a).getD .null) vb)
        | none => List.lookup k a := by
  induction b generalizing a with
  | nil => rfl
  | cons hd rest ih =>
    obtain ⟨k₀, v₀⟩ := hd
    have hnd' : (k₀ :: rest.map (fun kv => kv.1)).Nodup := by simpa using hnd
    have hk₀ : k₀ ∉ rest.map (fun kv => kv.1) := (List.nodup_cons.mp hnd').1
    have hndr : (rest.map (fun kv => kv.1)).Nodup := (List.nodup_cons.mp hnd').2
    show List.lookup k
        (mergeObj (setEntry a k₀ (json_merge ((List.lookup k₀ a).getD .null) v₀)) rest) = _
    rw [ih _ hndr]
    by_cases h : k = k₀
    · subst h
      have hrest : List.lookup k rest = none := lookup_eq_none_of_not_mem rest k hk₀
      simp [List.lookup, hrest, lookup_setEntry_self]
    · rw [lookup_setEntry_ne a k₀ _ k h]
      cases hr : List.lookup k rest <;>
        simp [List.lookup, hr, beq_eq_false_iff_ne.mpr h]

/-! ## C1: the three shape cases of `json_merge` -/

/-- C1.  `json_merge` merges two objects key-recursively (keys of `b` are
merged into `a`, an absent key standing in as `Value::Null`), concatenates
two arrays in order, and for any other pair of shapes returns the second
value. -/
theorem json_merge_shape_cases :
    (∀ (a b : List (String × Json)), (b.map (fun kv => kv.1)).Nodup →
      json_merge (.obj a) (.obj b) = .obj (mergeObj a b)
      ∧ ∀ k, List.lookup k (mergeObj a b)
          = match List.lookup k b with
            | some vb => some (json_merge ((List.lookup k a).getD .null) vb)
            | none => List.lookup k a)
    ∧ (∀ xs ys : List Json, json_merge (.arr xs) (.arr ys) = .arr (xs ++ ys))
    ∧ (∀ a b : Json, (a.isObjB && b.isObjB) = false → (a.isArrB && b.isArrB) = false →
        json_merge a b = b) := by
  refine ⟨fun a b hnd => ⟨rfl, fun k => lookup_mergeObj b a hnd k⟩, fun xs ys => rfl, ?_⟩
  intro a b h1 h2
  cases a <;> cases b <;> first
    | rfl
    | (exfalso; simp_all [Json.isObjB, Json.isArrB])

/-- Witness for C1 at concrete objects: merging `{"x":1}` with
`{"x":2,"y":3}` binds `"x"` to the recursive merge of `1` and `2`, i.e.
`2`. -/
theorem json_merge_shape_cases_witness :
    List.lookup "x" (mergeObj [("x", Json.num 1)] [("x", Json.num 2), ("y", Json.num 3)])
      = some (Json.num 2) :=
  ((json_merge_shape_cases.1 [("x", Json.num 1)] [("x", Json.num 2), ("y", Json.num 3)]
    (by decide)).2) "x"

/-! ## Order facts about `strLt` -/

theorem charListLt_irrefl (l : List Char) : charListLt l l = false := by
  induction l with
  | nil => rfl
  | cons c rest ih => simp [charListLt, ih]

theorem charListLt_trans (a b c : List Char) (hab : charListLt a b = true)
    (hbc : charListLt b c = true) : charListLt a c = true := by
  induction a generalizing b c with
  | nil =>
    cases b with
    | nil => cases c <;> simp_all [charListLt]
    | cons y bs => cases c with
      | nil => simp [charListLt] at hbc
      | cons z cs => simp [charListLt]
  | cons x as ih =>
    cases b with
    | nil => simp [charListLt] at hab
    | cons y bs =>
      cases c with
      | nil => simp [charListLt] at hbc
      | cons z cs =>
        simp only [charListLt] at hab hbc ⊢
        by_cases h1 : x.toNat < y.toNat
        · by_cases h2 : y.toNat < z.toNat
          · simp [Nat.lt_trans h1 h2]
          · by_cases h3 : z.toNat < y.toNat
            · simp [h2, h3] at hbc
            · have hyz : y.toNat = z.toNat := by omega
              simp [hyz ▸ h1]
        · by_cases h2 : y.toNat < x.toNat
          · simp [h1, h2] at hab
          · have hxy : x.toNat = y.toNat := by omega
            simp [h1, h2] at hab
            by_cases h3 : y.toNat < z.toNat
            · simp [hxy ▸ h3]
            · by_cases h4 : z.toNat < y.toNat
              · simp [h3, h4] at hbc
              · have hyz : y.toNat = z.toNat := by omega
                simp [h3, h4] at hbc
                have hxz : ¬ x.toNat < z.toNat := by omega
                have hzx : ¬ z.toNat < x.toNat := by omega
                simp [hxz, hzx, ih bs cs hab hbc]

theorem charListLt_conn (a b : List Char) (hab : charListLt a b = false)
    (hba : charListLt b a = false) : a = b := by
  induction a generalizing b with
  | nil => cases b with
    | nil => rfl
    | cons y bs => simp [charListLt] at hab
  | cons x as ih =>
    cases b with
    | nil => simp [charListLt] at hba
    | cons y bs =>
      simp only [charListLt] at hab hba
      rcases Nat.lt_trichotomy x.toNat y.toNat with hxy | hxy | hxy
      · simp [hxy] at hab
      · have hx : x = y := Char.eq_of_val_eq (UInt32.ext hxy)
        subst hx
        simp [Nat.lt_irrefl] at hab hba
        rw [ih bs hab hba]
      · simp [hxy, Nat.lt_asymm hxy] at hba

theorem strLt_irrefl (a : String) : strLt a a = false := charListLt_irrefl a.data

theorem strLt_trans {a b c : String} (hab : strLt a b = true) (hbc : strLt b c = true) :
    strLt a c = true := charListLt_trans a.data b.data c.data hab hbc

theorem strLt_conn {a b : String} (hab : strLt a b = false) (hba : strLt b a = false) :
    a = b := by
  cases a; cases b
  exact congrArg String.mk (charListLt_conn _ _ hab hba)

theorem strLt_asymm {a b : String} (hab : strLt a b = true) : strLt b a = false := by
  rcases h : strLt b a with _ | _
  · rfl
  · exact absurd (strLt_trans hab h) (by simp [strLt_irrefl])

theorem strLt_ne {a b : String} (hab : strLt a b = true) : a ≠ b := by
  intro h
  subst h
  simp [strLt_irrefl] at hab

/-! ## Sortedness machinery for object entry lists -/

theorem setEntry_cons_eq (l : List (String × Json)) (k v k₀ v₀) (h : k = k₀) :
    setEntry ((k₀, v₀) :: l) k v = (k, v) :: l := by
  simp [setEntry, beq_iff_eq.mpr h]

theorem setEntry_cons_lt (l : List (String × Json)) (k v k₀ v₀) (h : k ≠ k₀)
    (hlt : strLt k k₀ = true) :
    setEntry ((k₀, v₀) :: l) k v = (k, v) :: (k₀, v₀) :: l := by
  simp [setEntry, hlt, beq_eq_false_iff_ne.mpr h]

theorem setEntry_cons_gt (l : List (String × Json)) (k v k₀ v₀) (h : k ≠ k₀)
    (hlt : strLt k k₀ = false) :
    setEntry ((k₀, v₀) :: l) k v = (k₀, v₀) :: setEntry l k v := by
  simp [setEntry, hlt, beq_eq_false_iff_ne.mpr h]

theorem keys_setEntry_mem (l : List (String × Json)) (k : String) (v : Json) :
    ∀ x ∈ setEntry l k v, x.1 = k ∨ ∃ y ∈ l, x.1 = y.1 := by
  induction l with
  | nil =>
    intro x hx
    simp [setEntry] at hx
    simp [hx]
  | cons hd rest ih =>
    obtain ⟨k₀, v₀⟩ := hd
    intro x hx
    by_cases h : k = k₀
    · rw [setEntry_cons_eq rest k v k₀ v₀ h] at hx
      rcases List.mem_cons.mp hx with hx | hx
      · exact Or.inl (by rw [hx])
      · exact Or.inr ⟨x, List.mem_cons_of_mem _ hx, rfl⟩
    · rcases hlt : strLt k k₀ with _ | _
      · rw [setEntry_cons_gt rest k v k₀ v₀ h hlt] at hx
        rcases List.mem_cons.mp hx with hx | hx
        · exact Or.inr ⟨(k₀, v₀), List.mem_cons_self _ _, by rw [hx]⟩
        · rcases ih x hx with hh | ⟨y, hy, hyy⟩
          · exact Or.inl hh
          · exact Or.inr ⟨y, List.mem_cons_of_mem _ hy, hyy⟩
      · rw [setEntry_cons_lt rest k v k₀ v₀ h hlt] at hx
        rcases List.mem_cons.mp hx with hx | hx
        · exact Or.inl (by rw [hx])
        · exact Or.inr ⟨x, hx, rfl⟩

theorem sorted_setEntry (l : List (String × Json)) (k : String) (v : Json)
    (hs : l.Pairwise (fun x y => strLt x.1 y.1 = true)) :
    (setEntry l k v).Pairwise (fun x y => strLt x.1 y.1 = true) := by
  induction l with
  | nil => simp [setEntry]
  | cons hd rest ih =>
    obtain ⟨k₀, v₀⟩ := hd
    rw [List.pairwise_cons] at hs
    obtain ⟨hhead, hrest⟩ := hs
    by_cases h : k = k₀
    · rw [setEntry_cons_eq rest k v k₀ v₀ h]
      refine List.pairwise_cons.mpr ⟨?_, hrest⟩
      intro y hy
      rw [h]
      exact hhead y hy
    · rcases hlt : strLt k k₀ with _ | _
      · have hk₀k : strLt k₀ k = true := by
          rcases hx : strLt k₀ k with _ | _
          · exact absurd (strLt_conn hlt hx) h
          · rfl
        rw [setEntry_cons_gt rest k v k₀ v₀ h hlt]
        refine List.pairwise_cons.mpr ⟨?_, ih hrest⟩
        intro y hy
        rcases keys_setEntry_mem rest k v y hy with hk | ⟨z, hz, hzy⟩
        · rw [hk]; exact hk₀k
        · rw [hzy]; exact hhead z hz
      · rw [setEntry_cons_lt rest k v k₀ v₀ h hlt]
        refine List.pairwise_cons.mpr ⟨?_, List.pairwise_cons.mpr ⟨hhead, hrest⟩⟩
        intro y hy
        rcases List.mem_cons.mp hy with hy | hy
        · rw [hy]; exact hlt
        · exact strLt_trans hlt (hhead y hy)

theorem sorted_mergeObj (b a : List (String × Json))
    (hs : a.Pairwise (fun x y => strLt x.1 y.1 = true)) :
    (mergeObj a b).Pairwise (fun x y => strLt x.1 y.1 = true) := by
  induction b generalizing a with
  | nil => exact hs
  | cons hd rest ih =>
    obtain ⟨k₀, v₀⟩ := hd
    exact ih _ (sorted_setEntry a k₀ _ hs)

theorem nodup_keys_of_sorted (l : List (String × Json))
    (hs : l.Pairwise (fun x y => strLt x.1 y.1 = true)) :
    (l.map (fun kv => kv.1)).Nodup := by
  have h2 : l.Pairwise (fun x y => x.1 ≠ y.1) := hs.imp (fun h => strLt_ne h)
  show (l.map (fun kv => kv.1)).Pairwise (fun a b => a ≠ b)
  exact List.pairwise_map.mpr h2

theorem lookup_none_of_head_lt (k₁ : String) (r : List (String × Json))
    (hh : ∀ y ∈ r, strLt k₁ y.1 = true) : List.lookup k₁ r = none := by
  apply lookup_eq_none_of_not_mem
  intro hmem
  rw [List.mem_map] at hmem
  obtain ⟨y, hy, hyk⟩ := hmem
  have := hh y hy
  rw [hyk] at this
  simp [strLt_irrefl] at this

theorem lookup_mem {β : Type} (l : List (String × β)) (k : String) (v : β)
    (h : List.lookup k l = some v) : (k, v) ∈ l := by
  induction l with
  | nil => simp [List.lookup] at h
  | cons hd rest ih =>
    obtain ⟨k₀, v₀⟩ := hd
    by_cases hk : k = k₀
    · subst hk
      simp [List.lookup] at h
      simp [h]
    · simp [List.lookup, beq_eq_false_iff_ne.mpr hk] at h
      exact List.mem_cons_of_mem _ (ih h)

/-- Two sorted entry lists with the same lookups are equal: the sorted
representation of a `BTreeMap` is canonical. -/
theorem sortedExt (l₁ : List (String × Json)) :
    ∀ l₂ : List (String × Json),
    l₁.Pairwise (fun x y => strLt x.1 y.1 = true) →
    l₂.Pairwise (fun x y => strLt x.1 y.1 = true) →
    (∀ k, List.lookup k l₁ = List.lookup k l₂) → l₁ = l₂ := by
  induction l₁ with
  | nil =>
    intro l₂ _ _ h
    cases l₂ with
    | nil => rfl
    | cons hd r =>
      obtain ⟨k₂, v₂⟩ := hd
      have := h k₂
      simp [List.lookup] at this
  | cons hd r₁ ih =>
    obtain ⟨k₁, v₁⟩ := hd
    intro l₂ h₁ h₂ h
    cases l₂ with
    | nil =>
      have := h k₁
      simp [List.lookup] at this
    | cons hd₂ r₂ =>
      obtain ⟨k₂, v₂⟩ := hd₂
      rw [List.pairwise_cons] at h₁ h₂
      obtain ⟨hh₁, hr₁⟩ := h₁
      obtain ⟨hh₂, hr₂⟩ := h₂
      have hk : k₁ = k₂ := by
        by_contra hne
        rcases hlt : strLt k₁ k₂ with _ | _
        · have hk₂k₁ : strLt k₂ k₁ = true := by
            rcases hx : strLt k₂ k₁ with _ | _
            · exact absurd (strLt_conn hlt hx) hne
            · rfl
          have hlk : List.lookup k₂ ((k₁, v₁) :: r₁) = none := by
            have hr : List.lookup k₂ r₁ = none := by
              apply lookup_eq_none_of_not_mem
              intro hmem
              rw [List.mem_map] at hmem
              obtain ⟨y, hy, hyk⟩ := hmem
              have h5 := strLt_trans hk₂k₁ (hh₁ y hy)
              rw [hyk] at h5
              simp [strLt_irrefl] at h5
            simp [List.lookup, beq_eq_false_iff_ne.mpr (Ne.symm hne), hr]
          have := h k₂
          rw [hlk] at this
          simp [List.lookup] at this
        · have hlk : List.lookup k₁ ((k₂, v₂) :: r₂) = none := by
            have hr : List.lookup k₁ r₂ = none := by
              apply lookup_eq_none_of_not_mem
              intro hmem
              rw [List.mem_map] at hmem
              obtain ⟨y, hy, hyk⟩ := hmem
              have h5 := strLt_trans hlt (hh₂ y hy)
              rw [hyk] at h5
              simp [strLt_irrefl] at h5
            simp [List.lookup, beq_eq_false_iff_ne.mpr hne, hr]
          have := h k₁
          rw [hlk] at this
          simp [List.lookup] at this
      subst hk
      have hv : v₁ = v₂ := by
        have := h k₁
        simpa [List.lookup] using this
      subst hv
      congr 1
      apply ih r₂ hr₁ hr₂
      intro k
      by_cases hkk : k = k₁
      · subst hkk
        rw [lookup_none_of_head_lt k r₁ hh₁, lookup_none_of_head_lt k r₂ hh₂]
      · have := h k
        simpa [List.lookup, beq_eq_false_iff_ne.mpr hkk] using this

theorem entriesSortedB_pairwise (l : List (String × Json)) (h : entriesSortedB l = true) :
    l.Pairwise (fun x y => strLt x.1 y.1 = true) := by
  induction l with
  | nil => simp
  | cons x rest ih =>
    cases rest with
    | nil => simp
    | cons y rest2 =>
      simp only [entriesSortedB, Bool.and_eq_true] at h
      have hp := ih h.2
      refine List.pairwise_cons.mpr ⟨?_, hp⟩
      intro z hz
      rcases List.mem_cons.mp hz with hz | hz
      · rw [hz]; exact h.1
      · exact strLt_trans h.1 ((List.pairwise_cons.mp hp).1 z hz)

theorem objWF_obj_sorted {kvs : List (String × Json)} (h : Json.objWF (.obj kvs) = true) :
    kvs.Pairwise (fun x y => strLt x.1 y.1 = true) := by
  simp only [Json.objWF, Bool.and_eq_true] at h
  exact entriesSortedB_pairwise kvs h.1

theorem objWF_obj_values {kvs : List (String × Json)} (h : Json.objWF (.obj kvs) = true) :
    ∀ kv ∈ kvs, Json.objWF kv.2 = true := by
  simp only [Json.objWF, Bool.and_eq_true] at h
  have h2 := h.2
  clear h
  induction kvs with
  | nil => simp
  | cons hd rest ih =>
    obtain ⟨k, v⟩ := hd
    simp only [Json.objWFEntries, Bool.and_eq_true] at h2
    intro kv hkv
    rcases List.mem_cons.mp hkv with hkv | hkv
    · rw [hkv]; exact h2.1
    · exact ih h2.2 kv hkv

theorem json_merge_null_left (b : Json) : json_merge .null b = b := by
  cases b <;> rfl

theorem json_merge_scalar_left {a : Json} (h1 : a.isObjB = false) (h2 : a.isArrB = false)
    (b : Json) : json_merge a b = b := by
  cases a <;> cases b <;> first
    | rfl
    | simp_all [Json.isObjB, Json.isArrB]

/-! ## C2: associativity of the page merge -/

/-- Counterexample to C2 as stated: `json_merge` is not associative for all
JSON values.  With `A = [1]`, `B = null`, `C = [2]`,
`merge(merge(A,B),C) = [2]` while `merge(A,merge(B,C)) = [1,2]`: the
left association replaces `A` with `null` before `C` arrives, the right
association concatenates. -/
theorem json_merge_not_associative :
    ¬ (json_merge (json_merge (Json.arr [Json.num 1]) Json.null) (Json.arr [Json.num 2])
        = json_merge (Json.arr [Json.num 1]) (json_merge Json.null (Json.arr [Json.num 2]))) := by
  intro h
  have h' : Json.arr [Json.num 2] = Json.arr [Json.num 1, Json.num 2] := h
  have h2 := (List.cons.inj (Json.arr.inj h')).2
  exact List.noConfusion h2

/-- C2, amended.  `json_merge` is associative on every triple of values that
is hereditarily shape-homogeneous (`Hom3`) and whose object spines are
well-formed `serde_json` maps (`Json.objWF`); it is not associative for
arbitrary triples (see the counterexample), because merging two values of
different shapes discards the earlier one. -/
theorem json_merge_assoc_of_hom3 {A B C : Json} (h : Hom3 A B C) :
    Json.objWF A = true → Json.objWF B = true → Json.objWF C = true →
    json_merge (json_merge A B) C = json_merge A (json_merge B C) := by
  induction h with
  | scalars ha1 ha2 hb1 hb2 hc1 hc2 =>
    intro _ _ _
    rw [json_merge_scalar_left ha1 ha2 _, json_merge_scalar_left hb1 hb2 _,
      json_merge_scalar_left ha1 ha2 _]
  | arrays x y z =>
    intro _ _ _
    show Json.arr ((x ++ y) ++ z) = Json.arr (x ++ (y ++ z))
    rw [List.append_assoc]
  | @objects a b c hcomm ih =>
    intro hwa hwb hwc
    have sa := objWF_obj_sorted hwa
    have sb := objWF_obj_sorted hwb
    have sc := objWF_obj_sorted hwc
    have ndb := nodup_keys_of_sorted b sb
    have ndc := nodup_keys_of_sorted c sc
    have sbc := sorted_mergeObj c b sb
    have ndbc := nodup_keys_of_sorted _ sbc
    have sab := sorted_mergeObj b a sa
    show Json.obj (mergeObj (mergeObj a b) c) = Json.obj (mergeObj a (mergeObj b c))
    refine congrArg Json.obj (sortedExt _ _ (sorted_mergeObj c _ sab)
      (sorted_mergeObj _ a sa) ?_)
    intro k
    rw [lookup_mergeObj c (mergeObj a b) ndc k, lookup_mergeObj (mergeObj b c) a ndbc k,
      lookup_mergeObj b a ndb k, lookup_mergeObj c b ndc k]
    rcases hc : List.lookup k c with _ | vc <;>
      rcases hb : List.lookup k b with _ | vb <;>
        rcases ha : List.lookup k a with _ | va <;>
          simp [json_merge_null_left]
    exact ih k va vb vc ha hb hc
      (objWF_obj_values hwa (k, va) (lookup_mem a k va ha))
      (objWF_obj_values hwb (k, vb) (lookup_mem b k vb hb))
      (objWF_obj_values hwc (k, vc) (lookup_mem c k vc hc))

/-- Witness for the amended C2 at a concrete homogeneous triple of array
pages. -/
theorem json_merge_assoc_of_hom3_witness :
    json_merge (json_merge (Json.arr [Json.num 1]) (Json.arr [Json.num 2]))
        (Json.arr [Json.num 3])
      = json_merge (Json.arr [Json.num 1])
          (json_merge (Json.arr [Json.num 2]) (Json.arr [Json.num 3])) :=
  json_merge_assoc_of_hom3 (Hom3.arrays [Json.num 1] [Json.num 2] [Json.num 3]) rfl rfl rfl

/-! ## Step lemmas for the continuation pager -/

theorem pagerNext_eq_none_iff (fetch : Nat → Params → Except String Json) (st : PagerState) :
    pagerNext fetch st = none ↔ st.values_remaining = some 0 := by
  constructor
  · intro h
    by_cases h0 : st.values_remaining = some 0
    · exact h0
    · exfalso
      unfold pagerNext at h
      rcases hf : fetch st.idx (buildCurrentParams st.params st.continue_params) with e | r <;>
        simp [h0, hf] at h
  · intro h0
    simp [pagerNext, h0]

theorem pagerNext_isSome (fetch : Nat → Params → Except String Json) (st : PagerState)
    (h0 : st.values_remaining ≠ some 0) : ∃ step, pagerNext fetch st = some step := by
  rcases hp : pagerNext fetch st with _ | step
  · exact absurd ((pagerNext_eq_none_iff fetch st).mp hp) h0
  · exact ⟨step, rfl⟩

/-- Full description of a successful pull of the iterator. -/
theorem pagerNext_spec (fetch : Nat → Params → Except String Json) (st : PagerState)
    (step : PageStep) (h : pagerNext fetch st = some step) :
    step.before = st
    ∧ step.paramsUsed = buildCurrentParams st.params st.continue_params
    ∧ step.raw = fetch st.idx (buildCurrentParams st.params st.continue_params)
    ∧ step.after.params = st.params
    ∧ step.after.idx = st.idx + 1
    ∧ ((∃ r, step.raw = .ok r
          ∧ step.item = .ok (r.removeTop "continue")
          ∧ step.after.continue_params = r.index "continue"
          ∧ step.after.values_remaining
              = (if (r.index "continue").isNull then some 0
                 else
                   match st.values_remaining with
                   | some num => some (num - query_result_count r)
                   | none => none))
      ∨ (∃ e, step.raw = .error e ∧ step.item = .error e
          ∧ step.after.values_remaining = some 0 ∧ step.after.continue_params = .null)) := by
  by_cases h0 : st.values_remaining = some 0
  · simp [pagerNext, h0] at h
  · unfold pagerNext at h
    rw [if_neg h0] at h
    rcases hf : fetch st.idx (buildCurrentParams st.params st.continue_params) with e | r <;>
      simp only [hf] at h
    · have h' := Option.some.inj h
      subst h'
      exact ⟨rfl, rfl, rfl, rfl, rfl, Or.inr ⟨e, rfl, rfl, rfl, rfl⟩⟩
    · have h' := Option.some.inj h
      subst h'
      exact ⟨rfl, rfl, rfl, rfl, rfl, Or.inl ⟨r, rfl, rfl, rfl, rfl⟩⟩

theorem runPager_zero (fetch : Nat → Params → Except String Json) (st : PagerState) :
    runPager fetch 0 st = [] := rfl

theorem runPager_succ (fetch : Nat → Params → Except String Json) (fuel : Nat)
    (st : PagerState) :
    runPager fetch (fuel + 1) st
      = match pagerNext fetch st with
        | none => []
        | some step => step :: runPager fetch fuel step.after := rfl

theorem runPager_get_zero (fetch : Nat → Params → Except String Json) (fuel : Nat)
    (st : PagerState) (s : PageStep)
    (h : (runPager fetch fuel st).get? 0 = some s) : pagerNext fetch st = some s := by
  cases fuel with
  | zero => simp [runPager_zero] at h
  | succ n =>
    rw [runPager_succ] at h
    rcases hpn : pagerNext fetch st with _ | step <;> simp only [hpn] at h
    · simp at h
    · simp at h
      rw [h]

theorem runPager_get_zero_of_some (fetch : Nat → Params → Except String Json) (fuel : Nat)
    (st : PagerState) (s : PageStep) (hfuel : 0 < fuel)
    (h : pagerNext fetch st = some s) : (runPager fetch fuel st).get? 0 = some s := by
  cases fuel with
  | zero => omega
  | succ n => rw [runPager_succ, h]; rfl

/-- Position `n+1` of a run is position `0` of the run restarted from the
`n`-th step's post-state, with the fuel spent so far deducted. -/
theorem runPager_get_shift (fetch : Nat → Params → Except String Json) :
    ∀ (fuel : Nat) (st : PagerState) (n : Nat) (s : PageStep),
    (runPager fetch fuel st).get? n = some s →
    (runPager fetch fuel st).get? (n + 1)
      = (runPager fetch (fuel - (n + 1)) s.after).get? 0 := by
  intro fuel
  induction fuel with
  | zero =>
    intro st n s h
    simp [runPager_zero] at h
  | succ fuel ih =>
    intro st n s h
    rw [runPager_succ] at h ⊢
    rcases hpn : pagerNext fetch st with _ | step <;> simp only [hpn] at h ⊢
    · simp at h
    · cases n with
      | zero =>
        simp at h
        subst h
        simp
      | succ n =>
        simp only [List.get?] at h ⊢
        rw [ih step.after n s h]
        have harith : fuel - (n + 1) = fuel + 1 - (n + 1 + 1) := by omega
        rw [harith]

theorem runPager_origin (fetch : Nat → Params → Except String Json) :
    ∀ (fuel : Nat) (st : PagerState) (n : Nat) (s : PageStep),
    (runPager fetch fuel st).get? n = some s → pagerNext fetch s.before = some s := by
  intro fuel
  induction fuel with
  | zero =>
    intro st n s h
    simp [runPager_zero] at h
  | succ fuel ih =>
    intro st n s h
    rw [runPager_succ] at h
    rcases hpn : pagerNext fetch st with _ | step <;> simp only [hpn] at h
    · simp at h
    · cases n with
      | zero =>
        simp at h
        subst h
        rw [(pagerNext_spec fetch st step hpn).1]
        exact hpn
      | succ n =>
        simp only [List.get?] at h
        exact ih step.after n s h

theorem runPager_consec (fetch : Nat → Params → Except String Json) (fuel : Nat)
    (st : PagerState) (n : Nat) (s t : PageStep)
    (hs : (runPager fetch fuel st).get? n = some s)
    (ht : (runPager fetch fuel st).get? (n + 1) = some t) :
    pagerNext fetch s.after = some t := by
  rw [runPager_get_shift fetch fuel st n s hs] at ht
  exact runPager_get_zero fetch _ s.after t ht

theorem runPager_stop (fetch : Nat → Params → Except String Json) (fuel : Nat)
    (st : PagerState) (n : Nat) (s : PageStep)
    (hs : (runPager fetch fuel st).get? n = some s)
    (hnone : pagerNext fetch s.after = none) :
    (runPager fetch fuel st).get? (n + 1) = none := by
  rw [runPager_get_shift fetch fuel st n s hs]
  cases hk : fuel - (n + 1) with
  | zero => rfl
  | succ k => rw [runPager_succ, hnone]; rfl

theorem runPager_continue (fetch : Nat → Params → Except String Json) (fuel : Nat)
    (st : PagerState) (n : Nat) (s t : PageStep)
    (hs : (runPager fetch fuel st).get? n = some s)
    (hfuel : n + 1 < fuel)
    (hsome : pagerNext fetch s.after = some t) :
    (runPager fetch fuel st).get? (n + 1) = some t := by
  rw [runPager_get_shift fetch fuel st n s hs]
  exact runPager_get_zero_of_some fetch _ s.after t (by omega) hsome

theorem runPager_params_inv (fetch : Nat → Params → Except String Json) (fuel : Nat)
    (st : PagerState) :
    ∀ (n : Nat) (s : PageStep), (runPager fetch fuel st).get? n = some s →
    s.before.params = st.params ∧ s.after.params = st.params := by
  intro n
  induction n with
  | zero =>
    intro s h
    have hpn := runPager_get_zero fetch fuel st s h
    have hspec := pagerNext_spec fetch st s hpn
    exact ⟨by rw [hspec.1], hspec.2.2.2.1⟩
  | succ n ih =>
    intro s h
    have hlen : n + 1 < (runPager fetch fuel st).length := (List.get?_eq_some.mp h).1
    have hn : n < (runPager fetch fuel st).length := by omega
    obtain ⟨s', hs'⟩ : ∃ s', (runPager fetch fuel st).get? n = some s' := by
      rw [List.get?_eq_get hn]
      exact ⟨_, rfl⟩
    have hcons := runPager_consec fetch fuel st n s' s hs' h
    have hspec := pagerNext_spec fetch s'.after s hcons
    have hih := ih s' hs'
    exact ⟨by rw [hspec.1, hih.2], by rw [hspec.2.2.2.1, hih.2]⟩

/-! ## Continuation stripping and the accumulator -/

theorem buildCurrentParams_eq (base : Params) (cont : Json) :
    buildCurrentParams base cont
      = extendParams base
          (((cont.objEntries).filter (fun kv => kv.1 != "continue")).map
            (fun kv => (kv.1, stringifyContinueValue kv.2))) := by
  cases cont <;> rfl

theorem hasTop_removeTop (v : Json) (k : String) : (v.removeTop k).hasTop k = false := by
  cases v <;> simp [Json.removeTop, Json.hasTop]

theorem keys_mergeObj_mem (b : List (String × Json)) :
    ∀ (a : List (String × Json)) (x : String × Json), x ∈ mergeObj a b →
      (∃ y ∈ a, x.1 = y.1) ∨ (∃ y ∈ b, x.1 = y.1) := by
  induction b with
  | nil =>
    intro a x hx
    exact Or.inl ⟨x, hx, rfl⟩
  | cons hd rest ih =>
    obtain ⟨k₀, v₀⟩ := hd
    intro a x hx
    rcases ih (setEntry a k₀ (json_merge ((List.lookup k₀ a).getD .null) v₀)) x hx with
      hset | ⟨y, hy, hyx⟩
    · obtain ⟨y, hy, hyx⟩ := hset
      rcases keys_setEntry_mem a k₀ _ y hy with hk | ⟨z, hz, hzy⟩
      · exact Or.inr ⟨(k₀, v₀), List.mem_cons_self _ _, by rw [hyx, hk]⟩
      · exact Or.inl ⟨z, hz, by rw [hyx, hzy]⟩
    · exact Or.inr ⟨y, List.mem_cons_of_mem _ hy, hyx⟩

theorem hasTop_merge_false {a b : Json} (k : String) (ha : a.hasTop k = false)
    (hb : b.hasTop k = false) : (json_merge a b).hasTop k = false := by
  cases a <;> cases b <;> try simpa [json_merge, Json.hasTop] using hb
  case obj.obj x y =>
    show Json.hasTop (.obj (mergeObj x y)) k = false
    simp only [Json.hasTop, List.any_eq_false] at ha hb ⊢
    intro kv hkv
    rcases keys_mergeObj_mem y x kv hkv with ⟨z, hz, hzk⟩ | ⟨z, hz, hzk⟩
    · have := ha z hz
      simpa [hzk] using this
    · have := hb z hz
      simpa [hzk] using this

theorem tryFoldMerge_hasTop_false (k : String) :
    ∀ (items : List (Except String Json)) (acc : Json), acc.hasTop k = false →
    (∀ v : Json, .ok v ∈ items → v.hasTop k = false) →
    ∀ res, tryFoldMerge acc items = .ok res → res.hasTop k = false := by
  intro items
  induction items with
  | nil =>
    intro acc hacc _ res hres
    simp [tryFoldMerge] at hres
    rw [← hres]
    exact hacc
  | cons hd rest ih =>
    intro acc hacc hitems res hres
    cases hd with
    | ok v =>
      have hv : v.hasTop k = false := hitems v (List.mem_cons_self _ _)
      exact ih (json_merge acc v) (hasTop_merge_false k hacc hv)
        (fun w hw => hitems w (List.mem_cons_of_mem _ hw)) res hres
    | error e => simp [tryFoldMerge] at hres

/-! ## C5: continuation parameters and stripping of the marker -/

/-- C5.  In every run of the pager: the parameters of page request `n+1` are
the caller's original parameters extended with every key/value pair of page
`n`'s `continue` object except the `"continue"` marker key itself, with
non-string continuation values serialized to their JSON text form; every
emitted page has its top-level `continue` field removed; and a successful
folded accumulator never carries a top-level `continue` key. -/
theorem continuation_page_params_and_stripping (fetch : Nat → Params → Except String Json)
    (fuel : Nat) (p : Params) (m : Option Nat) :
    (∀ (n : Nat) (r : Json),
      ((runPager fetch fuel (initPager p m)).get? n).map (fun s => s.raw) = some (.ok r) →
      ((runPager fetch fuel (initPager p m)).get? (n + 1)).isSome = true →
      ((runPager fetch fuel (initPager p m)).get? (n + 1)).map (fun s => s.paramsUsed)
        = some (extendParams p
            (((r.index "continue").objEntries.filter (fun kv => kv.1 != "continue")).map
              (fun kv => (kv.1, stringifyContinueValue kv.2)))))
    ∧ (∀ (n : Nat) (v : Json),
      ((runPager fetch fuel (initPager p m)).get? n).map (fun s => s.item) = some (.ok v) →
      v.hasTop "continue" = false)
    ∧ (∀ acc : Json, get_query_api_json_limit fetch fuel p m = .ok acc →
      acc.hasTop "continue" = false) := by
  have part2 : ∀ (n : Nat) (v : Json),
      ((runPager fetch fuel (initPager p m)).get? n).map (fun s => s.item) = some (.ok v) →
      v.hasTop "continue" = false := by
    intro n v h
    obtain ⟨s, hs, hsi⟩ := Option.map_eq_some'.mp h
    have horig := runPager_origin fetch fuel _ n s hs
    have hspec := pagerNext_spec fetch s.before s horig
    rcases hspec.2.2.2.2.2 with ⟨r, _, hitem, _, _⟩ | ⟨e, _, hitem, _⟩
    · have hv : Except.ok (ε := String) v = .ok (r.removeTop "continue") := by
        rw [← hsi, hitem]
      rw [Except.ok.inj hv]
      exact hasTop_removeTop r "continue"
    · rw [hitem] at hsi
      exact absurd hsi (by simp)
  refine ⟨?_, part2, ?_⟩
  · intro n r h1 h2
    obtain ⟨s, hs, hsr⟩ := Option.map_eq_some'.mp h1
    obtain ⟨t, ht⟩ := Option.isSome_iff_exists.mp h2
    have hcons := runPager_consec fetch fuel _ n s t hs ht
    have hspec_t := pagerNext_spec fetch s.after t hcons
    have horig := runPager_origin fetch fuel _ n s hs
    have hspec_s := pagerNext_spec fetch s.before s horig
    have hcont : s.after.continue_params = r.index "continue" := by
      rcases hspec_s.2.2.2.2.2 with ⟨r', hr', _, hc', _⟩ | ⟨e, he, _⟩
      · rw [hsr] at hr'
        rw [hc', Except.ok.inj hr']
      · rw [hsr] at he
        exact absurd he (by simp)
    have hparams : s.after.params = p := (runPager_params_inv fetch fuel _ n s hs).2
    rw [ht]
    simp only [Option.map_some']
    rw [hspec_t.2.1, hparams, hcont, buildCurrentParams_eq]
  · intro acc hacc
    unfold get_query_api_json_limit at hacc
    apply tryFoldMerge_hasTop_false "continue"
      ((runPager fetch fuel (initPager p m)).map (fun s => s.item)) Json.null rfl _ acc hacc
    intro v hv
    rw [List.mem_map] at hv
    obtain ⟨s, hsrun, hsv⟩ := hv
    obtain ⟨n, hn⟩ := List.mem_iff_get?.mp hsrun
    exact part2 n v (by rw [hn, Option.map_some', hsv])

/-- Witness for C5: in the concrete two-page run the second request's
parameters are the original parameters plus `xcontinue=5`, with the marker
key dropped. -/
theorem continuation_page_params_and_stripping_witness :
    ((runPager c5Fetch 3 (initPager [("action", "query")] none)).get? 1).map
        (fun s => s.paramsUsed)
      = some [("action", "query"), ("xcontinue", "5")] :=
  (continuation_page_params_and_stripping c5Fetch 3 [("action", "query")] none).1 0
    c5Page0 rfl rfl

/-! ## C6: termination of the page iterator -/

/-- Under a transport whose pages always parse, always carry a non-null
`continue`, and never contain a result array, the iterator runs as long as
it is pulled: a positive ceiling never drains. -/
theorem runPager_length_full (fetch : Nat → Params → Except String Json)
    (hfetch : ∀ i q, ∃ r, fetch i q = .ok r ∧ query_result_count r = 0
      ∧ (r.index "continue").isNull = false) :
    ∀ (fuel M : Nat), 0 < M → ∀ st : PagerState, st.values_remaining = some M →
    (runPager fetch fuel st).length = fuel := by
  intro fuel
  induction fuel with
  | zero => intro M hM st hst; rfl
  | succ fuel ih =>
    intro M hM st hst
    obtain ⟨r, hr, hcount, hcont⟩ :=
      hfetch st.idx (buildCurrentParams st.params st.continue_params)
    have h0 : st.values_remaining ≠ some 0 := by
      rw [hst]
      intro hc
      have := Option.some.inj hc
      omega
    obtain ⟨step, hstep⟩ := pagerNext_isSome fetch st h0
    have hspec := pagerNext_spec fetch st step hstep
    have hraw : step.raw = .ok r := by rw [hspec.2.2.1, hr]
    rcases hspec.2.2.2.2.2 with ⟨r', hr', _, _, hvr⟩ | ⟨e, he, _⟩
    · have hrr : r' = r := Except.ok.inj (by rw [← hr', hraw])
      subst hrr
      rw [hcont] at hvr
      rw [hst] at hvr
      simp only [Bool.false_eq_true, if_false, hcount, Nat.sub_zero] at hvr
      rw [runPager_succ, hstep]
      simp only [List.length_cons]
      rw [ih M hM step.after hvr]
    · rw [he] at hraw
      exact absurd hraw (by simp)

/-- C6.  In every run of the pager: (i) a page whose response has no (null)
`continue` field is the last one; (ii) as long as fuel remains, the iterator
stops after step `n` exactly when that step left `values_remaining =
Some(0)` — which happens when the continuation ends or the running total of
newly observed items reaches a supplied ceiling; (iii) after a page with a
live continuation the remaining ceiling decreases by exactly that page's
`query_result_count`; (iv) a page whose `query` object holds no array
counts as zero; and (v) with a positive ceiling, pages that never contain
an array and always continue keep the iterator running for as long as it is
pulled — the ceiling alone never ends it. -/
theorem pager_termination_conditions (fetch : Nat → Params → Except String Json)
    (fuel : Nat) (p : Params) (m : Option Nat) :
    (∀ (n : Nat) (r : Json),
      ((runPager fetch fuel (initPager p m)).get? n).map (fun s => s.raw) = some (.ok r) →
      (r.index "continue").isNull = true →
      (runPager fetch fuel (initPager p m)).get? (n + 1) = none)
    ∧ (∀ n : Nat, ((runPager fetch fuel (initPager p m)).get? n).isSome = true →
      n + 1 < fuel →
      ((runPager fetch fuel (initPager p m)).get? (n + 1) = none ↔
        ((runPager fetch fuel (initPager p m)).get? n).map
            (fun s => s.after.values_remaining) = some (some 0)))
    ∧ (∀ (n : Nat) (s : PageStep) (r : Json),
      (runPager fetch fuel (initPager p m)).get? n = some s → s.raw = .ok r →
      (r.index "continue").isNull = false →
      s.after.values_remaining
        = s.before.values_remaining.map (fun num => num - query_result_count r))
    ∧ (∀ r : Json, ((r.index "query").objEntries.all (fun kv => !kv.2.isArrB)) = true →
      query_result_count r = 0)
    ∧ ((∀ i q, ∃ r, fetch i q = .ok r ∧ query_result_count r = 0
        ∧ (r.index "continue").isNull = false) →
      ∀ M : Nat, m = some M → 0 < M →
      (runPager fetch fuel (initPager p m)).length = fuel) := by
  refine ⟨?_, ?_, ?_, ?_, ?_⟩
  · intro n r h1 hnull
    obtain ⟨s, hs, hsr⟩ := Option.map_eq_some'.mp h1
    have horig := runPager_origin fetch fuel _ n s hs
    have hspec := pagerNext_spec fetch s.before s horig
    have hzero : s.after.values_remaining = some 0 := by
      rcases hspec.2.2.2.2.2 with ⟨r', hr', _, _, hvr⟩ | ⟨e, he, _, hvr, _⟩
      · have hrr : r' = r := Except.ok.inj (by rw [← hr', hsr])
        subst hrr
        rw [hnull] at hvr
        simpa using hvr
      · exact hvr
    exact runPager_stop fetch fuel _ n s hs ((pagerNext_eq_none_iff fetch s.after).mpr hzero)
  · intro n hsome hfuel
    obtain ⟨s, hs⟩ := Option.isSome_iff_exists.mp hsome
    constructor
    · intro hnone
      by_contra hne
      have hvr : s.after.values_remaining ≠ some 0 := by
        intro hc
        apply hne
        rw [hs, Option.map_some', hc]
      obtain ⟨t, ht⟩ := pagerNext_isSome fetch s.after hvr
      rw [runPager_continue fetch fuel _ n s t hs hfuel ht] at hnone
      exact Option.noConfusion hnone
    · intro hzero
      have hvr : s.after.values_remaining = some 0 := by
        rw [hs, Option.map_some'] at hzero
        exact Option.some.inj hzero
      exact runPager_stop fetch fuel _ n s hs ((pagerNext_eq_none_iff fetch s.after).mpr hvr)
  · intro n s r hs hraw hcont
    have horig := runPager_origin fetch fuel _ n s hs
    have hspec := pagerNext_spec fetch s.before s horig
    rcases hspec.2.2.2.2.2 with ⟨r', hr', _, _, hvr⟩ | ⟨e, he, _⟩
    · have hrr : r' = r := Except.ok.inj (by rw [← hr', hraw])
      subst hrr
      rw [hcont] at hvr
      simp only [Bool.false_eq_true, if_false] at hvr
      rw [hvr]
      cases s.before.values_remaining <;> rfl
    · rw [he] at hraw
      exact absurd hraw (by simp)
  · intro r hall
    unfold query_result_count
    rcases hq : r.index "query" with _ | _ | _ | _ | xs | kvs <;> try rfl
    rw [hq] at hall
    have hnone : kvs.findSome? (fun kv =>
        match kv.2 with
        | .arr a => some a.length
        | _ => none) = none := by
      apply List.findSome?_eq_none_iff.mpr
      intro kv hkv
      have := List.all_eq_true.mp hall kv hkv
      rcases kv with ⟨kk, vv⟩
      cases vv <;> simp_all [Json.isArrB]
    simp [hnone]
  · intro hfetch M hm hM
    rw [hm]
    exact runPager_length_full fetch hfetch fuel M hM (initPager p (some M)) rfl

/-- Witness for C6: in the concrete two-page run the second page has no
`continue` field, and the iterator stops right after it. -/
theorem pager_termination_conditions_witness :
    (runPager c5Fetch 5 (initPager [("action", "query")] none)).get? 2 = none :=
  (pager_termination_conditions c5Fetch 5 [("action", "query")] none).1 1 c5Page1 rfl rfl

/-! ## C7: the OAuth signature base string -/

theorem lookup_of_mem_nodup {β : Type} (l : List (String × β))
    (hnd : (l.map (fun kv => kv.1)).Nodup) (k : String) (v : β) (hmem : (k, v) ∈ l) :
    List.lookup k l = some v := by
  induction l with
  | nil => simp at hmem
  | cons hd rest ih =>
    obtain ⟨k₀, v₀⟩ := hd
    have hnd' : k₀ ∉ rest.map (fun kv => kv.1) ∧ (rest.map (fun kv => kv.1)).Nodup := by
      rw [List.map_cons, List.nodup_cons] at hnd
      exact hnd
    rcases List.mem_cons.mp hmem with hm | hm
    · have hk : k = k₀ := congrArg Prod.fst hm
      have hv : v = v₀ := congrArg Prod.snd hm
      subst hk
      subst hv
      simp [List.lookup]
    · have hk : k ≠ k₀ := by
        intro hkk
        subst hkk
        exact hnd'.1 (List.mem_map_of_mem (fun kv => kv.1) hm)
      simp [List.lookup, beq_eq_false_iff_ne.mpr hk]
      exact ih hnd'.2 hm

theorem keysFilterMap_eq (ps : Params) (hnd : (ps.map (fun kv => kv.1)).Nodup) :
    (ps.map (fun kv => kv.1)).filterMap
        (fun k => (List.lookup k ps).map (fun v => k ++ "=" ++ rawurlencode v))
      = ps.map (fun kv => kv.1 ++ "=" ++ rawurlencode kv.2) := by
  induction ps with
  | nil => rfl
  | cons hd rest ih =>
    obtain ⟨k₀, v₀⟩ := hd
    have hnd' : k₀ ∉ rest.map (fun kv => kv.1) ∧ (rest.map (fun kv => kv.1)).Nodup := by
      rw [List.map_cons, List.nodup_cons] at hnd
      exact hnd
    rw [List.map_cons, List.filterMap_cons]
    have hhead : List.lookup k₀ ((k₀, v₀) :: rest) = some v₀ := by simp [List.lookup]
    rw [hhead]
    have htail : (rest.map (fun kv => kv.1)).filterMap
        (fun k => (List.lookup k ((k₀, v₀) :: rest)).map
          (fun v => k ++ "=" ++ rawurlencode v))
        = (rest.map (fun kv => kv.1)).filterMap
            (fun k => (List.lookup k rest).map (fun v => k ++ "=" ++ rawurlencode v)) := by
      apply List.filterMap_congr
      intro k hk
      have hkne : k ≠ k₀ := by
        intro hkk
        subst hkk
        exact hnd'.1 hk
      simp [List.lookup, beq_eq_false_iff_ne.mpr hkne]
    simp only [Option.map_some']
    rw [htail, ih hnd'.2, List.map_cons]

/-- The joined pair list, when every key survives percent-encoding
unchanged: a permutation (namely the key-sorted arrangement) of the rendered
`key=encoded_value` pairs of the supplied map. -/
theorem oauth_pairs_perm (to_sign : Params)
    (hnd : (to_sign.map (fun kv => kv.1)).Nodup)
    (henc : ∀ kv ∈ to_sign, rawurlencode kv.1 = kv.1) :
    List.Perm (oauthJoinedPairs to_sign)
      (to_sign.map (fun kv => kv.1 ++ "=" ++ rawurlencode kv.2)) := by
  unfold oauthJoinedPairs oauthSortedEncodedKeys
  have hmap : to_sign.map (fun kv => rawurlencode kv.1) = to_sign.map (fun kv => kv.1) :=
    List.map_congr_left (fun kv hkv => henc kv hkv)
  rw [hmap]
  have hperm := List.perm_insertionSort (fun a b => !(strLt b a))
    (to_sign.map (fun kv => kv.1))
  refine (hperm.filterMap _).trans ?_
  rw [keysFilterMap_eq to_sign hnd]

/-- Counterexample to C7 as stated: a parameter whose key is changed by
percent-encoding is silently dropped.  `sign_oauth_request` looks every
sorted *encoded* key up in the *raw* map, so for the map `{"a b": "v"}` the
joined pair list is empty — the supplied parameter appears zero times, not
exactly once. -/
theorem oauth_dropped_param_counterexample :
    oauthJoinedPairs [("a b", "v")] = []
    ∧ ¬ ("a%20b=v" ∈ oauthJoinedPairs [("a b", "v")]) := by
  refine ⟨rfl, ?_⟩
  intro h
  rw [show oauthJoinedPairs [("a b", "v")] = [] from rfl] at h
  exact List.not_mem_nil _ h

/-- C7, amended.  For parameter maps whose keys are unchanged by
percent-encoding (as every actual MediaWiki/OAuth parameter name is), the
joined pairs are exactly the `key=percent_encode(value)` renderings of the
supplied parameters, key-sorted — each supplied parameter appears exactly
once — and the base string is
`percent_encode(method) & percent_encode(scheme://host[:port]/path) &
percent_encode(joined pairs)`.  Parameters whose keys are altered by
encoding are dropped from the joined pairs (see the counterexample). -/
theorem oauth_base_string_canonicalization (method : String) (u : ParsedUrl)
    (to_sign : Params)
    (hnd : (to_sign.map (fun kv => kv.1)).Nodup)
    (henc : ∀ kv ∈ to_sign, rawurlencode kv.1 = kv.1) :
    List.Perm (oauthJoinedPairs to_sign)
      (to_sign.map (fun kv => kv.1 ++ "=" ++ rawurlencode kv.2))
    ∧ (∀ kv ∈ to_sign, (kv.1 ++ "=" ++ rawurlencode kv.2) ∈ oauthJoinedPairs to_sign)
    ∧ (oauthJoinedPairs to_sign).length = to_sign.length
    ∧ oauthBaseString method u to_sign
        = rawurlencode method ++ "&" ++ rawurlencode (baseUrlString u) ++ "&" ++
          rawurlencode (joinSep "&" (oauthJoinedPairs to_sign)) := by
  have hperm := oauth_pairs_perm to_sign hnd henc
  refine ⟨hperm, ?_, ?_, rfl⟩
  · intro kv hkv
    exact hperm.mem_iff.mpr
      (List.mem_map_of_mem (fun kv => kv.1 ++ "=" ++ rawurlencode kv.2) hkv)
  · exact hperm.length_eq.trans (List.length_map _ _)

/-- Witness for the amended C7 at a concrete two-parameter map: both pairs
appear, sorted by key, with the value of `a` percent-encoded. -/
theorem oauth_base_string_canonicalization_witness :
    (oauthJoinedPairs [("b", "2"), ("a", "1 x")]).length = 2 :=
  (oauth_base_string_canonicalization "GET" ⟨"https", "example.org", none, "/w/api.php"⟩
    [("b", "2"), ("a", "1 x")] (by decide) (by decide)).2.2.1
